import Mathlib

/-!
Verification of the resumable, integrity-verified object transfer subsystem of
the greenfield go-sdk, together with two thin client API functions.

The client API surface (`GetLatestBlockHeight`, `MirrorObject` / `MirrorBucket`,
`GetPieceHashRoots`) is embedded from the repository sources.  The transfer
core itself (Segmenter, Integrity Hasher, Checkpoint Store and the two
Transfer Orchestrators) is not present in the sources, only its end-to-end
tests and callers are; those components are modelled from the specification
document, and every such definition is marked `Modelled from the spec:` in its
doc comment.
-/

namespace Gnfd

/-- Error taxonomy of the transfer engine, from the spec's section 7. -/
inductive TransferError where
  | invalidConfiguration
  | ioFailure
  | corruptCheckpoint
  | transferAborted
  | integrityMismatch
deriving DecidableEq, Repr

/-- Redundancy type of an object, mirroring `storageTypes.RedundancyType`
(erasure-coded or replica). -/
inductive RedundancyType where
  | ec
  | replica
deriving DecidableEq, Repr

/-- A segment descriptor `(index, startOffset, length)` as produced by the
Segmenter (spec section 4.1). -/
structure Segment where
  index : Nat
  start : Nat
  len : Nat
deriving DecidableEq, Repr

/-- Modelled from the spec: the Segmenter body (not in the sources; only its
e2e callers are).  Splits `remaining` bytes starting at segment index `idx`
into part-size `P` chunks; all segments have length `P` except the final one,
whose length is the remainder.  `fuel` is a structural-recursion bound, always
instantiated with the total remaining size (sufficient since `P > 0`). -/
def buildSegs (P : Nat) : Nat → Nat → Nat → List Segment
  | 0, _, _ => []
  | fuel + 1, remaining, idx =>
    if remaining = 0 then []
    else if remaining ≤ P then [⟨idx, idx * P, remaining⟩]
    else ⟨idx, idx * P, P⟩ :: buildSegs P fuel (remaining - P) (idx + 1)

/-- Modelled from the spec: the Segmenter's segment sequence for an object of
`size` bytes and part size `P`, starting from segment index 0. -/
def splitSegments (P size : Nat) : List Segment :=
  buildSegs P size size 0

/-- Modelled from the spec: the Segmenter entry point.  Part size `≤ 0` or
greater than the object size is rejected with `InvalidConfiguration`
(spec section 4.1). -/
def segmenter (size partSize : Int) : Except TransferError (List Segment) :=
  if partSize ≤ 0 ∨ size < partSize then .error .invalidConfiguration
  else .ok (splitSegments partSize.toNat size.toNat)

/-- Sum of the lengths of a list of segments. -/
def sumLens (segs : List Segment) : Nat :=
  (segs.map Segment.len).sum

/-- Checks that a segment list carries consecutive indices starting at `i` and
contiguous byte ranges starting at offset `off`. -/
def checkContiguous : Nat → Nat → List Segment → Bool
  | _, _, [] => true
  | i, off, seg :: rest =>
    seg.index == i && seg.start == off && checkContiguous (i + 1) (off + seg.len) rest

theorem buildSegs_sumLens (P : Nat) (hP : 0 < P) :
    ∀ fuel remaining idx, remaining ≤ fuel →
      sumLens (buildSegs P fuel remaining idx) = remaining := by
  intro fuel
  induction fuel with
  | zero =>
    intro remaining idx h
    interval_cases remaining
    simp [buildSegs, sumLens]
  | succ n ih =>
    intro remaining idx h
    by_cases h0 : remaining = 0
    · simp [buildSegs, h0, sumLens]
    · by_cases h1 : remaining ≤ P
      · simp [buildSegs, h0, h1, sumLens]
      · have hrec := ih (remaining - P) (idx + 1) (by omega)
        simp only [buildSegs, if_neg h0, if_neg h1, sumLens, List.map_cons, List.sum_cons]
        simp only [sumLens] at hrec
        omega

theorem buildSegs_contiguous (P : Nat) :
    ∀ fuel remaining idx,
      checkContiguous idx (idx * P) (buildSegs P fuel remaining idx) = true := by
  intro fuel
  induction fuel with
  | zero => intro remaining idx; simp [buildSegs, checkContiguous]
  | succ n ih =>
    intro remaining idx
    by_cases h0 : remaining = 0
    · simp [buildSegs, h0, checkContiguous]
    · by_cases h1 : remaining ≤ P
      · simp [buildSegs, h0, h1, checkContiguous]
      · have hrec := ih (remaining - P) (idx + 1)
        simp only [buildSegs, if_neg h0, if_neg h1, checkContiguous]
        rw [show idx * P + P = (idx + 1) * P by ring, hrec]
        simp

theorem buildSegs_dropLast_len (P : Nat) :
    ∀ fuel remaining idx, ∀ s ∈ (buildSegs P fuel remaining idx).dropLast,
      s.len = P := by
  intro fuel
  induction fuel with
  | zero => intro remaining idx s hs; simp [buildSegs] at hs
  | succ n ih =>
    intro remaining idx s hs
    by_cases h0 : remaining = 0
    · simp [buildSegs, h0] at hs
    · by_cases h1 : remaining ≤ P
      · simp [buildSegs, h0, h1] at hs
      · simp only [buildSegs, if_neg h0, if_neg h1] at hs
        rcases htail : buildSegs P n (remaining - P) (idx + 1) with _ | ⟨b, bs⟩
        · rw [htail] at hs
          simp at hs
        · rw [htail, List.dropLast_cons₂, List.mem_cons] at hs
          rcases hs with h | h


          · rw [h]
          · exact ih (remaining - P) (idx + 1) s (htail ▸ h)

theorem buildSegs_getLast_len (P : Nat) (hP : 0 < P) :
    ∀ fuel remaining idx, remaining ≤ fuel → 0 < remaining →
      ((buildSegs P fuel remaining idx).getLast?).map Segment.len =
        some (if remaining % P = 0 then P else remaining % P) := by
  intro fuel
  induction fuel with
  | zero => intro remaining idx h h0; omega
  | succ n ih =>
    intro remaining idx h h0
    by_cases h1 : remaining ≤ P
    · have hne : ¬ remaining = 0 := by omega
      simp only [buildSegs, if_neg hne, if_pos h1, List.getLast?_singleton, Option.map_some']
      congr 1
      rcases Nat.lt_or_ge remaining P with hlt | hge
      · rw [if_neg (by rw [Nat.mod_eq_of_lt hlt]; omega), Nat.mod_eq_of_lt hlt]
      · have : remaining = P := by omega
        subst this
        rw [if_pos (Nat.mod_self _)]
    · have hne : ¬ remaining = 0 := by omega
      have hrec := ih (remaining - P) (idx + 1) (by omega) (by omega)
      simp only [buildSegs, if_neg hne, if_neg h1]
      rcases htail : buildSegs P n (remaining - P) (idx + 1) with _ | ⟨b, bs⟩
      · rw [htail] at hrec
        simp at hrec
      rw [htail] at hrec
      have hmod : (remaining - P) % P = remaining % P := by
        conv_rhs => rw [show remaining = remaining - P + P by omega]
        rw [Nat.add_mod_right]
      rw [List.getLast?_cons_cons, hrec, hmod]

theorem splitSegments_len_pos (P size : Nat) (hs : 0 < size) :
    splitSegments P size ≠ [] := by
  unfold splitSegments
  cases size with
  | zero => omega
  | succ m =>
    simp only [buildSegs, if_neg (by omega : ¬ m + 1 = 0)]
    by_cases h1 : m + 1 ≤ P
    · simp [h1]
    · simp [h1]

/-- C2: for every object size `S` and part size `P > 0` accepted by the
Segmenter, the produced segment descriptors are zero-indexed and contiguous,
their lengths sum exactly to `S`, every segment except the last has length
exactly `P`, and the last segment's length equals `S mod P` (or `P` when `P`
divides `S` evenly). -/
theorem segmenter_segments_exact (size partSize : Int) (segs : List Segment)
    (h : segmenter size partSize = Except.ok segs) :
    checkContiguous 0 0 segs = true ∧
    sumLens segs = size.toNat ∧
    (∀ s ∈ segs.dropLast, s.len = partSize.toNat) ∧
    (segs.getLast?).map Segment.len =
      some (if size.toNat % partSize.toNat = 0 then partSize.toNat
            else size.toNat % partSize.toNat) := by
  unfold segmenter at h
  by_cases hc : partSize ≤ 0 ∨ size < partSize
  · rw [if_pos hc] at h
    exact absurd h (by simp)
  · rw [if_neg hc] at h
    push_neg at hc
    obtain ⟨hP, hS⟩ := hc
    have hP' : 0 < partSize.toNat := by omega
    have hS' : 0 < size.toNat := by omega
    have hsegs : segs = splitSegments partSize.toNat size.toNat := by
      cases h
      rfl
    subst hsegs
    refine ⟨?_, ?_, ?_, ?_⟩
    · have := buildSegs_contiguous partSize.toNat size.toNat size.toNat 0
      simpa [splitSegments] using this
    · exact buildSegs_sumLens partSize.toNat hP' size.toNat size.toNat 0 le_rfl
    · exact buildSegs_dropLast_len partSize.toNat size.toNat size.toNat 0
    · exact buildSegs_getLast_len partSize.toNat hP' size.toNat size.toNat 0 le_rfl hS'

/-- Witness for `segmenter_segments_exact` at size 5, part size 2. -/
theorem segmenter_segments_exact_witness :
    segmenter 5 2 = Except.ok [⟨0, 0, 2⟩, ⟨1, 2, 2⟩, ⟨2, 4, 1⟩] ∧
    (checkContiguous 0 0 [⟨0, 0, 2⟩, ⟨1, 2, 2⟩, ⟨2, 4, 1⟩] = true ∧
     sumLens [⟨0, 0, 2⟩, ⟨1, 2, 2⟩, ⟨2, 4, 1⟩] = (5 : Int).toNat ∧
     (∀ s ∈ ([⟨0, 0, 2⟩, ⟨1, 2, 2⟩, ⟨2, 4, 1⟩] : List Segment).dropLast,
        s.len = (2 : Int).toNat) ∧
     (([⟨0, 0, 2⟩, ⟨1, 2, 2⟩, ⟨2, 4, 1⟩] : List Segment).getLast?).map Segment.len =
       some (if (5 : Int).toNat % (2 : Int).toNat = 0 then (2 : Int).toNat
             else (5 : Int).toNat % (2 : Int).toNat)) :=
  ⟨rfl, segmenter_segments_exact 5 2 [⟨0, 0, 2⟩, ⟨1, 2, 2⟩, ⟨2, 4, 1⟩] rfl⟩

/-- C7: a Segmenter configuration whose part size is ≤ 0 or strictly greater
than the object size fails with `InvalidConfiguration`; in particular a part
size larger than the object is rejected rather than run as one short segment. -/
theorem segmenter_invalid_part_size (size partSize : Int)
    (h : partSize ≤ 0 ∨ size < partSize) :
    segmenter size partSize = Except.error TransferError.invalidConfiguration := by
  unfold segmenter
  rw [if_pos h]

/-- Witness for `segmenter_invalid_part_size`: part size 5 over a 3-byte
object is rejected. -/
theorem segmenter_invalid_part_size_witness :
    ((5 : Int) ≤ 0 ∨ (3 : Int) < 5) ∧
    segmenter 3 5 = Except.error TransferError.invalidConfiguration :=
  ⟨Or.inr (by decide), segmenter_invalid_part_size 3 5 (Or.inr (by decide))⟩

/-! ## Checkpoint Store and upload checkpoint advancement (spec sections 4.3, 4.4) -/

/-- Modelled from the spec: the Upload Orchestrator's per-segment
acknowledgement record (not in the sources).  Entry `i` is `true` once
segment `i` has been `Acked`. -/
def applyAck (st : List Bool) (i : Nat) : List Bool :=
  st.set i true

/-- Modelled from the spec: processing a sequence of (possibly out-of-order)
segment acknowledgements, as collected by the orchestrator's single
checkpoint writer. -/
def runAcks (st : List Bool) (evs : List Nat) : List Bool :=
  evs.foldl applyAck st

/-- Number of leading `Acked` segments: the fully-contiguous acknowledged
prefix of the segment list. -/
def contiguousAckCount : List Bool → Nat
  | [] => 0
  | b :: rest => if b then contiguousAckCount rest + 1 else 0

/-- Modelled from the spec: the high-water checkpoint offset the orchestrator
persists — the byte offset below which every segment is `Acked`
(`P` is the part size; all checkpointed parts are full-size). -/
def checkpointOf (P : Nat) (st : List Bool) : Nat :=
  P * contiguousAckCount st

theorem contiguousAckCount_le_set_true (st : List Bool) (i : Nat) :
    contiguousAckCount st ≤ contiguousAckCount (applyAck st i) := by
  induction st generalizing i with
  | nil => simp [applyAck]
  | cons b rest ih =>
    cases i with
    | zero =>
      cases b <;> simp [applyAck, contiguousAckCount, List.set]
    | succ j =>
      cases b with
      | false => simp [applyAck, contiguousAckCount, List.set]
      | true =>
        simp only [applyAck, List.set, contiguousAckCount, if_pos rfl]
        exact Nat.succ_le_succ (ih j)

theorem contiguousAckCount_acked (st : List Bool) (j : Nat)
    (hj : j < contiguousAckCount st) : st.getD j false = true := by
  induction st generalizing j with
  | nil => simp [contiguousAckCount] at hj
  | cons b rest ih =>
    cases b with
    | false => simp [contiguousAckCount] at hj
    | true =>
      cases j with
      | zero => rfl
      | succ k =>
        simp only [contiguousAckCount, if_true] at hj
        simpa using ih k (by omega)

theorem checkpointOf_le_applyAck (P : Nat) (st : List Bool) (i : Nat) :
    checkpointOf P st ≤ checkpointOf P (applyAck st i) :=
  Nat.mul_le_mul_left P (contiguousAckCount_le_set_true st i)

theorem checkpointOf_le_runAcks (P : Nat) (st : List Bool) (evs : List Nat) :
    checkpointOf P st ≤ checkpointOf P (runAcks st evs) := by
  induction evs generalizing st with
  | nil => exact le_rfl
  | cons e rest ih =>
    calc checkpointOf P st ≤ checkpointOf P (applyAck st e) :=
          checkpointOf_le_applyAck P st e
      _ ≤ checkpointOf P (runAcks (applyAck st e) rest) := ih (applyAck st e)

/-- C1: over an upload run the persisted checkpoint offset is monotonically
non-decreasing, it only covers byte ranges of `Acked` segments (so it cannot
advance past a still-pending lower-indexed segment), and in particular while
segment 2 is unacknowledged the checkpoint never exceeds segment 2's start
offset `2·P`, regardless of out-of-order acknowledgements such as 3, 2, 4. -/
theorem checkpoint_monotone_and_contiguous (P : Nat) (hP : 0 < P)
    (st : List Bool) (evs : List Nat) :
    checkpointOf P st ≤ checkpointOf P (runAcks st evs) ∧
    (∀ j, (j + 1) * P ≤ checkpointOf P st → st.getD j false = true) ∧
    (st.getD 2 false = false → checkpointOf P st ≤ 2 * P) := by
  refine ⟨checkpointOf_le_runAcks P st evs, ?_, ?_⟩
  · intro j hj
    apply contiguousAckCount_acked
    unfold checkpointOf at hj
    by_contra hcon
    push_neg at hcon
    have : P * contiguousAckCount st ≤ P * j := Nat.mul_le_mul_left P hcon
    nlinarith
  · intro h2
    have hcc : contiguousAckCount st ≤ 2 := by
      by_contra hcon
      push_neg at hcon
      have := contiguousAckCount_acked st 2 (by omega)
      rw [this] at h2
      exact absurd h2 (by simp)
    unfold checkpointOf
    calc P * contiguousAckCount st ≤ P * 2 := Nat.mul_le_mul_left P hcc
      _ = 2 * P := Nat.mul_comm P 2

/-- Witness for `checkpoint_monotone_and_contiguous`: part size 1, five
segments with 0 and 1 acked, then segment 3 acked out of order; events 2 and
4 still pending. -/
theorem checkpoint_monotone_and_contiguous_witness :
    0 < 1 ∧
    (checkpointOf 1 [true, true, false, true, false] ≤
       checkpointOf 1 (runAcks [true, true, false, true, false] [2, 4]) ∧
     (∀ j, (j + 1) * 1 ≤ checkpointOf 1 [true, true, false, true, false] →
        ([true, true, false, true, false] : List Bool).getD j false = true) ∧
     (([true, true, false, true, false] : List Bool).getD 2 false = false →
        checkpointOf 1 [true, true, false, true, false] ≤ 2 * 1)) :=
  ⟨by decide,
   checkpoint_monotone_and_contiguous 1 (by decide) [true, true, false, true, false] [2, 4]⟩

/-- Modelled from the spec: the Checkpoint Store `Load` operation (not in the
sources).  A stored offset newer than the total object size or not aligned to
the part size fails with `CorruptCheckpoint` and forces a restart from offset
0; a valid offset is resumed from as-is. -/
def loadCheckpoint (size partSize offset : Nat) : Nat × Option TransferError :=
  if size < offset ∨ offset % partSize ≠ 0 then (0, some .corruptCheckpoint)
  else (offset, none)

/-- C6: loading a checkpoint whose offset exceeds the object size or is not a
multiple of the part size fails with `CorruptCheckpoint` and restarts the
transfer from offset 0; the invalid offset itself is never resumed from (the
load is a total function, so it cannot crash). -/
theorem loadCheckpoint_corrupt (size partSize offset : Nat)
    (h : size < offset ∨ offset % partSize ≠ 0) :
    loadCheckpoint size partSize offset = (0, some TransferError.corruptCheckpoint) ∧
    (loadCheckpoint size partSize offset).1 ≠ offset := by
  have hne : offset ≠ 0 := by
    rcases h with h | h
    · omega
    · intro hcon
      rw [hcon] at h
      exact h (Nat.zero_mod _)
  unfold loadCheckpoint
  rw [if_pos h]
  exact ⟨rfl, fun hcon => hne hcon.symm⟩

/-- Witness for `loadCheckpoint_corrupt`: object size 10, part size 4, stored
offset 6 (not part-aligned). -/
theorem loadCheckpoint_corrupt_witness :
    (10 < 6 ∨ 6 % 4 ≠ 0) ∧
    (loadCheckpoint 10 4 6 = (0, some TransferError.corruptCheckpoint) ∧
     (loadCheckpoint 10 4 6).1 ≠ 6) :=
  ⟨Or.inr (by decide), loadCheckpoint_corrupt 10 4 6 (Or.inr (by decide))⟩

/-! ## Integrity Hasher (spec section 4.2) and `GetPieceHashRoots` -/

/-- Modelled from the spec: a stand-in for the SHA-256 content hash used by
the Integrity Hasher (the hash library is not in the sources).  Any
deterministic function of the byte list into a fixed-width word serves the
model; we use a polynomial fold reduced modulo `2 ^ 64`. -/
def hashBytes (bs : List Nat) : Nat :=
  bs.foldl (fun h b => (h * 131 + b + 1) % 2 ^ 64) 7

/-- Splits a byte list into consecutive chunks of `P` bytes (the last chunk
may be shorter).  `fuel` is a structural-recursion bound, instantiated with
the list length. -/
def chunkBytes (P : Nat) : Nat → List Nat → List (List Nat)
  | 0, _ => []
  | fuel + 1, bs =>
    if bs.isEmpty then []
    else bs.take P :: chunkBytes P fuel (bs.drop P)

/-- Modelled from the spec: `ComputeIntegrityHash` of the hash library (not
in the sources; `GetPieceHashRoots` in the sources calls it).  Consumes the
byte content, the segment size and the data/parity shard counts; produces the
piece hash root list (primary payload hash first, then one secondary piece
hash root per remaining shard, `dataShards + parityShards` roots in total,
matching the spec's invariant that `dataShards + parityShards - 1` secondary
roots remain after removing the primary), the total size and the resolved
redundancy type.  Zero shard count or segment size is rejected with
`InvalidConfiguration`. -/
def computeIntegrityHash (content : List Nat) (segSize dataShards parityShards : Nat) :
    Except TransferError (List Nat × Nat × RedundancyType) :=
  if segSize = 0 ∨ dataShards + parityShards = 0 then .error .invalidConfiguration
  else
    let segs := chunkBytes segSize content.length content
    let primary := hashBytes (segs.map hashBytes)
    let shardCount := dataShards + parityShards
    let pieceSize := (segSize + shardCount - 1) / shardCount
    let secondary := (List.range (shardCount - 1)).map fun j =>
      hashBytes (segs.map fun seg =>
        hashBytes ((seg.drop ((j + 1) * pieceSize)).take pieceSize))
    .ok (primary :: secondary, content.length, .ec)

/-- GetPieceHashRoots returns the primary piece hash, the secondary piece
hash roots list and the object size; it is used to generate the object's
on-chain metadata (sources, `GetPieceHashRoots`): the first entry of the
computed root list is the primary, the rest are the secondaries. -/
def GetPieceHashRoots (content : List Nat) (segSize dataShards parityShards : Nat) :
    Except TransferError (Nat × List Nat × Nat × RedundancyType) :=
  match computeIntegrityHash content segSize dataShards parityShards with
  | .error e => .error e
  | .ok (roots, size, rt) => .ok (roots.headD 0, roots.drop 1, size, rt)

/-- The Integrity Hasher consumes its input as a stream of reader chunks in a
single pass; the result depends only on the concatenated byte content. -/
def GetPieceHashRootsFromReader (reader : List (List Nat))
    (segSize dataShards parityShards : Nat) :
    Except TransferError (Nat × List Nat × Nat × RedundancyType) :=
  GetPieceHashRoots reader.flatten segSize dataShards parityShards

/-- C3: the Integrity Hasher is deterministic — two runs over identical byte
content (however the reader chunks it) with identical segment size and
data/parity shard parameters produce the identical primary hash, secondary
piece hash root list, total size and redundancy type. -/
theorem integrity_hash_deterministic (r₁ r₂ : List (List Nat))
    (segSize dataShards parityShards : Nat) (h : r₁.flatten = r₂.flatten) :
    GetPieceHashRootsFromReader r₁ segSize dataShards parityShards =
      GetPieceHashRootsFromReader r₂ segSize dataShards parityShards := by
  unfold GetPieceHashRootsFromReader
  rw [h]

/-- Witness for `integrity_hash_deterministic`: the same three bytes arriving
in chunkings `[[1,2],[3]]` and `[[1],[2,3]]`. -/
theorem integrity_hash_deterministic_witness :
    ([[1, 2], [3]] : List (List Nat)).flatten = ([[1], [2, 3]] : List (List Nat)).flatten ∧
    GetPieceHashRootsFromReader [[1, 2], [3]] 2 4 2 =
      GetPieceHashRootsFromReader [[1], [2, 3]] 2 4 2 :=
  ⟨by decide, integrity_hash_deterministic [[1, 2], [3]] [[1], [2, 3]] 2 4 2 (by decide)⟩

/-- C4: every successful integrity hash computation with data shard count `D`
and parity shard count `Pa` returns, after removing the primary hash, a
secondary piece hash root list of length exactly `D + Pa - 1`. -/
theorem piece_hash_roots_secondary_len (content : List Nat)
    (segSize dataShards parityShards : Nat) (prim : Nat) (secs : List Nat)
    (sz : Nat) (rt : RedundancyType)
    (h : GetPieceHashRoots content segSize dataShards parityShards =
      Except.ok (prim, secs, sz, rt)) :
    secs.length = dataShards + parityShards - 1 := by
  unfold GetPieceHashRoots computeIntegrityHash at h
  by_cases hc : segSize = 0 ∨ dataShards + parityShards = 0
  · rw [if_pos hc] at h
    exact absurd h (by simp)
  · rw [if_neg hc] at h
    simp only [Except.ok.injEq, Prod.mk.injEq, List.drop_succ_cons, List.drop_zero] at h
    have hsecs := h.2.1
    rw [← hsecs]
    simp

/-- Witness for `piece_hash_roots_secondary_len`: an empty object, segment
size 1, one data shard and one parity shard yield one secondary root. -/
theorem piece_hash_roots_secondary_len_witness :
    GetPieceHashRoots [] 1 1 1 = Except.ok (7, [7], 0, RedundancyType.ec) ∧
    ([7] : List Nat).length = 1 + 1 - 1 :=
  ⟨rfl, piece_hash_roots_secondary_len [] 1 1 1 7 [7] 0 RedundancyType.ec rfl⟩

/-! ## Upload Orchestrator (spec section 4.4) -/

/-- A ranged read of `len` bytes of `content` starting at byte `off`. -/
def rangeRead (content : List Nat) (off len : Nat) : List Nat :=
  (content.drop off).take len

/-- Modelled from the spec: one segment send attempt with retries (the
orchestrator is not in the sources).  The fault-injection hook decides
whether an attempt on segment `i` fails; a failed attempt is retried with the
remaining budget, and the attempt limit exhausts when the budget reaches 0. -/
def attemptSegment (hook : Nat → Bool) (i : Nat) : Nat → Bool
  | 0 => false
  | b + 1 => if hook i then attemptSegment hook i b else true

/-- Outcome of an upload run: the persisted checkpoint offset, the byte
chunks sent (in order), and the surfaced error, if any, tagged with the
failing segment's index. -/
structure UploadResult where
  checkpoint : Nat
  sent : List (List Nat)
  err : Option (Nat × TransferError)
deriving Repr

/-- Modelled from the spec: the Upload Orchestrator's segment loop (not in
the sources).  Segments whose byte range is already below the resume
checkpoint are skipped without sending bytes; each remaining segment is sent
with retries, advancing the checkpoint to the segment's end on success;
exhausting the attempt limit on a segment aborts the transfer, surfacing the
failing segment and leaving the checkpoint at the last advanced offset. -/
def runUpload (hook : Nat → Bool) (budget : Nat) (content : List Nat) :
    Nat → List Segment → UploadResult
  | cp, [] => ⟨cp, [], none⟩
  | cp, seg :: rest =>
    if seg.start + seg.len ≤ cp then runUpload hook budget content cp rest
    else if attemptSegment hook seg.index budget then
      let r := runUpload hook budget content (seg.start + seg.len) rest
      ⟨r.checkpoint, rangeRead content seg.start seg.len :: r.sent, r.err⟩
    else ⟨cp, [], some (seg.index, .transferAborted)⟩

theorem attemptSegment_clean (hook : Nat → Bool) (i budget : Nat)
    (hb : 0 < budget) (h : hook i = false) : attemptSegment hook i budget = true := by
  cases budget with
  | zero => omega
  | succ b => simp [attemptSegment, h]

theorem attemptSegment_fault (hook : Nat → Bool) (i : Nat) (h : hook i = true) :
    ∀ budget, attemptSegment hook i budget = false := by
  intro budget
  induction budget with
  | zero => rfl
  | succ b ih => simp [attemptSegment, h, ih]

theorem runUpload_clean_from (P budget : Nat) (hP : 0 < P) (hb : 0 < budget)
    (content : List Nat) :
    ∀ fuel remaining idx, remaining ≤ fuel →
      idx * P ≤ content.length →
      remaining = content.length - idx * P →
      ∃ ss, runUpload (fun _ => false) budget content (idx * P)
          (buildSegs P fuel remaining idx) = ⟨content.length, ss, none⟩ ∧
        ss.flatten = content.drop (idx * P) := by
  intro fuel
  induction fuel with
  | zero =>
    intro remaining idx hf hle hrem
    refine ⟨[], ?_, ?_⟩
    · have h0 : remaining = 0 := by omega
      have hend : idx * P = content.length := by omega
      simp [buildSegs, h0, runUpload, hend]
    · have hend : idx * P = content.length := by omega
      simp [hend, List.drop_length]
  | succ n ih =>
    intro remaining idx hf hle hrem
    by_cases h0 : remaining = 0
    · refine ⟨[], ?_, ?_⟩
      · have hend : idx * P = content.length := by omega
        simp [buildSegs, h0, runUpload, hend]
      · have hend : idx * P = content.length := by omega
        simp [hend, List.drop_length]
    · by_cases h1 : remaining ≤ P
      · refine ⟨[rangeRead content (idx * P) remaining], ?_, ?_⟩
        · simp only [buildSegs, if_neg h0, if_pos h1, runUpload]
          rw [if_neg (by omega), if_pos (attemptSegment_clean _ _ _ hb rfl)]
          have hend : idx * P + remaining = content.length := by omega
          simp [runUpload, hend]
        · have hlen : (content.drop (idx * P)).length = remaining := by
            rw [List.length_drop]
            omega
          simp only [rangeRead, List.flatten_cons, List.flatten_nil, List.append_nil]
          rw [← hlen, List.take_length]
      · have hstep : (idx + 1) * P = idx * P + P := Nat.succ_mul idx P
        have hle' : (idx + 1) * P ≤ content.length := by omega
        have hrem' : remaining - P = content.length - (idx + 1) * P := by omega
        obtain ⟨ss, hss, hflat⟩ := ih (remaining - P) (idx + 1) (by omega) hle' hrem'
        refine ⟨rangeRead content (idx * P) P :: ss, ?_, ?_⟩
        · simp only [buildSegs, if_neg h0, if_neg h1, runUpload]
          rw [if_neg (by omega), if_pos (attemptSegment_clean _ _ _ hb rfl)]
          rw [show idx * P + P = (idx + 1) * P from hstep.symm, hss]
        · simp only [List.flatten_cons, hflat, rangeRead]
          rw [hstep, ← List.drop_drop, List.take_append_drop]

theorem runUpload_clean_resume (P budget k : Nat) (hP : 0 < P) (hb : 0 < budget)
    (content : List Nat) :
    ∀ fuel remaining idx, remaining ≤ fuel →
      idx * P ≤ content.length →
      remaining = content.length - idx * P →
      idx ≤ k → k * P < content.length →
      ∃ ss, runUpload (fun _ => false) budget content (k * P)
          (buildSegs P fuel remaining idx) = ⟨content.length, ss, none⟩ ∧
        ss.flatten = content.drop (k * P) := by
  intro fuel
  induction fuel with
  | zero =>
    intro remaining idx hf hle hrem hik hkS
    have h1 := Nat.mul_le_mul_right P hik
    omega
  | succ n ih =>
    intro remaining idx hf hle hrem hik hkS
    rcases Nat.eq_or_lt_of_le hik with heq | hlt
    · subst heq
      exact runUpload_clean_from P budget hP hb content (n + 1) remaining idx hf hle hrem
    · have hik1 : idx + 1 ≤ k := hlt
      have hmul1 : (idx + 1) * P ≤ k * P := Nat.mul_le_mul_right P hik1
      have hstep : (idx + 1) * P = idx * P + P := Nat.succ_mul idx P
      have h0 : ¬ remaining = 0 := by omega
      have h1 : ¬ remaining ≤ P := by omega
      have hle' : (idx + 1) * P ≤ content.length := by omega
      have hrem' : remaining - P = content.length - (idx + 1) * P := by omega
      obtain ⟨ss, hss, hflat⟩ := ih (remaining - P) (idx + 1) (by omega) hle' hrem' hik1 hkS
      refine ⟨ss, ?_, hflat⟩
      simp only [buildSegs, if_neg h0, if_neg h1, runUpload]
      rw [if_pos (by omega)]
      exact hss

theorem runUpload_faulty (P budget k : Nat) (hP : 0 < P) (hb : 0 < budget)
    (content : List Nat) :
    ∀ fuel remaining idx, remaining ≤ fuel →
      idx * P ≤ content.length →
      remaining = content.length - idx * P →
      idx ≤ k → k * P < content.length →
      ∃ ss, runUpload (fun i => i == k) budget content (idx * P)
          (buildSegs P fuel remaining idx) =
          ⟨k * P, ss, some (k, TransferError.transferAborted)⟩ ∧
        ss.flatten = rangeRead content (idx * P) (k * P - idx * P) := by
  intro fuel
  induction fuel with
  | zero =>
    intro remaining idx hf hle hrem hik hkS
    have h1 := Nat.mul_le_mul_right P hik
    omega
  | succ n ih =>
    intro remaining idx hf hle hrem hik hkS
    have hmul := Nat.mul_le_mul_right P hik
    have h0 : ¬ remaining = 0 := by omega
    rcases Nat.eq_or_lt_of_le hik with heq | hlt
    · subst heq
      have hfault : attemptSegment (fun i => i == idx) idx budget = false :=
        attemptSegment_fault _ _ (by simp) budget
      by_cases h1 : remaining ≤ P
      · refine ⟨[], ?_, by simp [rangeRead]⟩
        simp only [buildSegs, if_neg h0, if_pos h1, runUpload]
        rw [if_neg (by omega), hfault]
        simp
      · refine ⟨[], ?_, by simp [rangeRead]⟩
        simp only [buildSegs, if_neg h0, if_neg h1, runUpload]
        rw [if_neg (by omega), hfault]
        simp
    · have hik1 : idx + 1 ≤ k := hlt
      have hmul1 : (idx + 1) * P ≤ k * P := Nat.mul_le_mul_right P hik1
      have hstep : (idx + 1) * P = idx * P + P := Nat.succ_mul idx P
      have h1 : ¬ remaining ≤ P := by omega
      have hle' : (idx + 1) * P ≤ content.length := by omega
      have hrem' : remaining - P = content.length - (idx + 1) * P := by omega
      obtain ⟨ss, hss, hflat⟩ := ih (remaining - P) (idx + 1) (by omega) hle' hrem' hik1 hkS
      refine ⟨rangeRead content (idx * P) P :: ss, ?_, ?_⟩
      · have hclean : attemptSegment (fun i => i == k) idx budget = true := by
          apply attemptSegment_clean _ _ _ hb
          simp only [beq_eq_false_iff_ne]
          omega
        simp only [buildSegs, if_neg h0, if_neg h1, runUpload]
        rw [if_neg (by omega), hclean]
        rw [show idx * P + P = (idx + 1) * P from hstep.symm, hss]
        simp
      · simp only [List.flatten_cons, hflat, rangeRead]
        rw [hstep, ← List.drop_drop]
        rw [show k * P - idx * P = P + (k * P - (idx + 1) * P) by omega]
        rw [List.take_add]
        rw [show k * P - (idx * P + P) = k * P - (idx + 1) * P by omega]

/-- C5: when segment `k` exhausts its retry budget, the upload fails
surfacing the failing segment's abort error and leaves the checkpoint at
`k·P`, a whole number of completed parts; a subsequent run over the same
bytes with the fault removed resumes from that checkpoint, completes, and the
bytes sent across the two runs are exactly the object's content, so the
integrity hash computed over them is identical to that of an uninterrupted
upload of the same bytes. -/
theorem upload_retry_exhaustion_and_resume (P budget k : Nat) (content : List Nat)
    (segSize dataShards parityShards : Nat) (r₁ r₂ : UploadResult)
    (hP : 0 < P) (hb : 0 < budget) (hk : k * P < content.length)
    (h₁ : runUpload (fun i => i == k) budget content 0
        (splitSegments P content.length) = r₁)
    (h₂ : runUpload (fun _ => false) budget content r₁.checkpoint
        (splitSegments P content.length) = r₂) :
    r₁.err = some (k, TransferError.transferAborted) ∧
    r₁.checkpoint = k * P ∧
    r₂.err = none ∧
    r₂.checkpoint = content.length ∧
    (r₁.sent ++ r₂.sent).flatten = content ∧
    GetPieceHashRoots ((r₁.sent ++ r₂.sent).flatten) segSize dataShards parityShards =
      GetPieceHashRoots content segSize dataShards parityShards := by
  obtain ⟨ss₁, hss₁, hflat₁⟩ :=
    runUpload_faulty P budget k hP hb content content.length content.length 0
      le_rfl (by simp) (by simp) (Nat.zero_le k) hk
  rw [Nat.zero_mul] at hss₁ hflat₁
  unfold splitSegments at h₁ h₂
  rw [hss₁] at h₁
  have hr₁cp : r₁.checkpoint = k * P := by rw [← h₁]
  have hr₁err : r₁.err = some (k, TransferError.transferAborted) := by rw [← h₁]
  have hr₁sent : r₁.sent = ss₁ := by rw [← h₁]
  obtain ⟨ss₂, hss₂, hflat₂⟩ :=
    runUpload_clean_resume P budget k hP hb content content.length content.length 0
      le_rfl (by simp) (by simp) (Nat.zero_le k) hk
  rw [hr₁cp, hss₂] at h₂
  have hr₂cp : r₂.checkpoint = content.length := by rw [← h₂]
  have hr₂err : r₂.err = none := by rw [← h₂]
  have hr₂sent : r₂.sent = ss₂ := by rw [← h₂]
  have hjoin : (r₁.sent ++ r₂.sent).flatten = content := by
    rw [hr₁sent, hr₂sent, List.flatten_append, hflat₁, hflat₂]
    simp only [rangeRead, List.drop_zero, Nat.sub_zero]
    exact List.take_append_drop (k * P) content
  exact ⟨hr₁err, hr₁cp, hr₂err, hr₂cp, hjoin, by rw [hjoin]⟩

/-- Witness for `upload_retry_exhaustion_and_resume`: a 5-byte object with
part size 2, segment 1 faulty with retry budget 2, then a clean resumed run. -/
theorem upload_retry_exhaustion_and_resume_witness :
    0 < 2 ∧ 1 * 2 < ([10, 11, 12, 13, 14] : List Nat).length ∧
    (UploadResult.err ⟨2, [[10, 11]], some (1, TransferError.transferAborted)⟩ =
       some (1, TransferError.transferAborted) ∧
     UploadResult.checkpoint ⟨2, [[10, 11]], some (1, TransferError.transferAborted)⟩ = 1 * 2 ∧
     UploadResult.err ⟨5, [[12, 13], [14]], none⟩ = none ∧
     UploadResult.checkpoint ⟨5, [[12, 13], [14]], none⟩ =
       ([10, 11, 12, 13, 14] : List Nat).length ∧
     ((UploadResult.sent ⟨2, [[10, 11]], some (1, TransferError.transferAborted)⟩ ++
        UploadResult.sent ⟨5, [[12, 13], [14]], none⟩).flatten = [10, 11, 12, 13, 14]) ∧
     GetPieceHashRoots
        ((UploadResult.sent ⟨2, [[10, 11]], some (1, TransferError.transferAborted)⟩ ++
          UploadResult.sent ⟨5, [[12, 13], [14]], none⟩).flatten) 2 4 2 =
       GetPieceHashRoots [10, 11, 12, 13, 14] 2 4 2) :=
  ⟨by decide, by decide,
   upload_retry_exhaustion_and_resume 2 2 1 [10, 11, 12, 13, 14] 2 4 2
     ⟨2, [[10, 11]], some (1, TransferError.transferAborted)⟩
     ⟨5, [[12, 13], [14]], none⟩
     (by decide) (by decide) (by decide) rfl rfl⟩

/-! ## Download Orchestrator (spec section 4.5) -/

/-- A full non-resumable download of a sealed object returns its entire byte
content. -/
def fullDownload (content : List Nat) : List Nat :=
  content

/-- Modelled from the spec: the Download Orchestrator's chunk loop (not in
the sources).  A requested range of `remaining` bytes starting at byte `off`
is served by ranged reads in part-size chunks, written sequentially.  `fuel`
is a structural-recursion bound, instantiated with the range length. -/
def downloadChunks (content : List Nat) (P : Nat) : Nat → Nat → Nat → List (List Nat)
  | 0, _, _ => []
  | fuel + 1, remaining, off =>
    if remaining = 0 then []
    else if remaining ≤ P then [rangeRead content off remaining]
    else rangeRead content off P :: downloadChunks content P fuel (remaining - P) (off + P)

/-- Modelled from the spec: the resumable ranged download — the concatenation
of the part-size chunk reads covering the requested byte range. -/
def resumableDownloadRange (content : List Nat) (P start len : Nat) : List Nat :=
  (downloadChunks content P len len start).flatten

theorem downloadChunks_flatten (content : List Nat) (P : Nat) (hP : 0 < P) :
    ∀ fuel remaining off, remaining ≤ fuel →
      (downloadChunks content P fuel remaining off).flatten =
        rangeRead content off remaining := by
  intro fuel
  induction fuel with
  | zero =>
    intro remaining off h
    interval_cases remaining
    simp [downloadChunks, rangeRead]
  | succ n ih =>
    intro remaining off h
    by_cases h0 : remaining = 0
    · simp [downloadChunks, h0, rangeRead]
    · by_cases h1 : remaining ≤ P
      · simp [downloadChunks, h0, h1]
      · have hrec := ih (remaining - P) (off + P) (by omega)
        simp only [downloadChunks, if_neg h0, if_neg h1, List.flatten_cons, hrec, rangeRead]
        rw [← List.drop_drop, show remaining = P + (remaining - P) by omega, List.take_add]
        rw [show P + (remaining - P) - P = remaining - P by omega]

/-- C8: for every object and every explicit byte range, the bytes produced by
the resumable ranged download equal byte-for-byte the slice of that range
taken from a full non-resumable download of the same object. -/
theorem resumable_download_range_equiv (content : List Nat) (P start len : Nat)
    (hP : 0 < P) :
    resumableDownloadRange content P start len =
      rangeRead (fullDownload content) start len := by
  unfold resumableDownloadRange fullDownload
  exact downloadChunks_flatten content P hP len len start le_rfl

/-- Witness for `resumable_download_range_equiv`: bytes 2..6 of a 10-byte
object downloaded in 3-byte parts. -/
theorem resumable_download_range_equiv_witness :
    0 < 3 ∧
    resumableDownloadRange [0, 1, 2, 3, 4, 5, 6, 7, 8, 9] 3 2 5 =
      rangeRead (fullDownload [0, 1, 2, 3, 4, 5, 6, 7, 8, 9]) 2 5 :=
  ⟨by decide, resumable_download_range_equiv [0, 1, 2, 3, 4, 5, 6, 7, 8, 9] 3 2 5 (by decide)⟩

/-! ## Thin client API functions embedded from the sources -/

/-- A block header as seen by the basic chain API. -/
structure BlockHeader where
  height : Int
deriving Repr

/-- A chain block, carrying its header. -/
structure Block where
  header : BlockHeader
deriving Repr

/-- GetLatestBlockHeight retrieves the height of the latest block
(src/client/api_basic.go, lines 133-139): it fetches the latest block and, on
a fetch error, returns `(0, nil)`; on success it returns the header height
with a nil error.  The fetch outcome is the function's input. -/
def GetLatestBlockHeight (latestBlock : Except String Block) : Int × Option String :=
  match latestBlock with
  | .error _ => (0, none)
  | .ok resp => (resp.header.height, none)

/-- C9: whenever fetching the latest block fails, `GetLatestBlockHeight`
returns height 0 together with a nil error — indistinguishable from a
successful query of a chain whose actual height is 0, so the error is
swallowed, never propagated. -/
theorem getLatestBlockHeight_swallows_error (e : String) :
    GetLatestBlockHeight (.error e) = (0, none) ∧
    GetLatestBlockHeight (.error e) = GetLatestBlockHeight (.ok ⟨⟨0⟩⟩) :=
  ⟨rfl, rfl⟩

/-- Storage-module cross-chain mirror messages. -/
inductive StorageMsg where
  | mirrorBucket (op : String) (id : Nat)
  | mirrorObject (op : String) (id : Nat)
  | mirrorGroup (op : String) (id : Nat)
deriving DecidableEq, Repr

/-- `storagetypes.NewMsgMirrorBucket(operator, id)` constructor. -/
def NewMsgMirrorBucket (op : String) (id : Nat) : StorageMsg :=
  .mirrorBucket op id

/-- `storagetypes.NewMsgMirrorObject(operator, id)` constructor (what an
object-mirroring call would be expected to build). -/
def NewMsgMirrorObject (op : String) (id : Nat) : StorageMsg :=
  .mirrorObject op id

/-- MirrorBucket broadcasts a `MsgMirrorBucket` built from the bucket id with
the given transaction option (src/client/api_crosschain.go, lines 106-113);
the result records the message list handed to `BroadcastTx` and the option. -/
def MirrorBucket (defaultAccount : String) (bucketId txOption : Nat) :
    List StorageMsg × Nat :=
  ([NewMsgMirrorBucket defaultAccount bucketId], txOption)

/-- MirrorObject (src/client/api_crosschain.go, lines 115-122) constructs
`msgMirrorBucket := NewMsgMirrorBucket(addr, objectId)` from the object id
and broadcasts it with the given transaction option. -/
def MirrorObject (defaultAccount : String) (objectId txOption : Nat) :
    List StorageMsg × Nat :=
  ([NewMsgMirrorBucket defaultAccount objectId], txOption)

/-- C10: for every object id and transaction option, `MirrorObject`
broadcasts exactly what `MirrorBucket` would broadcast for that id — a
`MsgMirrorBucket` built from the object id — and no object-mirroring message
is ever among the broadcast messages. -/
theorem mirrorObject_broadcasts_bucket_msg (acct : String) (objectId txOption : Nat) :
    MirrorObject acct objectId txOption = MirrorBucket acct objectId txOption ∧
    (MirrorObject acct objectId txOption).1 =
      [StorageMsg.mirrorBucket acct objectId] ∧
    ∀ oid, NewMsgMirrorObject acct oid ∉ (MirrorObject acct objectId txOption).1 := by
  refine ⟨rfl, rfl, ?_⟩
  intro oid
  simp [NewMsgMirrorObject, MirrorObject, NewMsgMirrorBucket]

end Gnfd
